import Mathlib

/-!
# Verification of the fluid-statement-generator normalization and decoding pipeline

Shallow embedding of the data-normalization and event-decoding pipeline:
the unit converter (`rateToApy`, `_formatUnits`, `_inferDecimals`), the
event-log decoder (`_decodeInt256`, `decodeEvent`), the paginated fetch
controller (`fetchVaultEvents`) and the transaction-history assembler
(`fetchForPositions`).

Modelling conventions:
* JS `BigInt` values are `ℕ`/`ℤ` (arbitrary precision, exact — as in JS).
* JS `Number` arithmetic on the decoded quantities is modelled over `ℚ`;
  where a claim itself is conditioned on floating representability, the
  exact-rational model realizes exactly that premise.
* Hex strings are modelled as `List Char`; `BigInt('0x' + w)` is
  `parseHexWord w`, whose `none` result models the thrown `SyntaxError`
  (caught by `decodeEvent`'s surrounding `try`/`catch`).
* Network effects are modelled by passing the response stream as a
  function argument (page number → response for the fetch controller,
  vault address → log list for the assembler).
-/

namespace FluidStatement

/-! ## Definitions: unit converter (`FluidFetcher.rateToApy`, `TransactionHistoryFetcher._formatUnits`, `_inferDecimals`) -/

/-- `rateToApy(rawRateStr)`: the raw rate is `BigInt(rawRateStr)`,
modelled as its exact integer value.  `abs`, `sign` and the threshold
test mirror the source; `abs / (10n ** 23n)` is BigInt division
(truncation, which on the non-negative `abs` is floor division); the
final JS `Number` divisions by 100 are modelled as exact rational
division. -/
def rateToApy (raw : ℤ) : ℚ :=
  let abs : ℤ := if raw < 0 then -raw else raw
  let sign : ℚ := if raw < 0 then -1 else 1
  if abs > 10 ^ 18 then
    let scaled : ℤ := abs / 10 ^ 23
    sign * (scaled : ℚ) / 100
  else
    sign * (abs : ℚ) / 100

/-- Modelled from the spec's wording of the scale auto-detection rule
(for comparison with `rateToApy`, which is translated from the source):
"if the magnitude exceeds `10^18`, treat the encoding as a
`10^27`-scaled ray and divide by `10^23` before halving by 100";
otherwise divide by 100; sign preserved.  The division of the magnitude
by `10^23` is the integer (floor) division the big-integer context of
the spec prescribes. -/
def rateToApySpec (r : ℤ) : ℚ :=
  let m : ℕ := r.natAbs
  let sgn : ℚ := if r < 0 then -1 else 1
  if 10 ^ 18 < m then sgn * ((m / 10 ^ 23 : ℕ) : ℚ) / 100
  else sgn * (m : ℚ) / 100

/-! ## Unit converter (`TransactionHistoryFetcher._formatUnits`) -/

/-- `_formatUnits(value, decimals)`: BigInt division and remainder,
then `parseFloat(intPart + "." + fracStr)` where `fracStr` is
`fracPart` zero-padded to `decimals` digits.  Since
`fracPart < 10^decimals`, the decimal string denotes exactly
`intPart + fracPart / 10^decimals`; the claims condition the float
boundary on exact representability, so the string's value is modelled
as that exact rational.  (For `decimals = 0` the emitted string is
`intPart + ".0"`, whose value is `intPart` — `fracPart = value % 1 = 0`.) -/
def _formatUnits (value : ℕ) (decimals : ℕ) : ℚ :=
  let divisor : ℕ := 10 ^ decimals
  let intPart : ℕ := value / divisor
  let fracPart : ℕ := value % divisor
  (intPart : ℚ) + (fracPart : ℚ) / (divisor : ℚ)

/-- `_inferDecimals(rawStr, formattedAmount)`.  The guard
`!rawStr || rawStr === '0' || !formattedAmount || formattedAmount === 0`
is modelled on `String` × `Option ℚ` (a missing `formattedAmount` is
`none`; a zero one is `some 0`).  The floating pipeline
`Math.round(Math.log10(parseFloat(rawStr) / formattedAmount))` runs over
binary floats and `±∞`, outside the integer model; it is abstracted as
the parameters `parse` (for `parseFloat`) and `roundLog10` (for
`Math.round ∘ Math.log10`), and the clamp
`Math.max(0, Math.min(decimals, 18))` is modelled exactly — the
properties proved below hold for every instantiation of the abstracted
float pipeline, hence for the concrete one. -/
def _inferDecimals (parse : String → ℚ) (roundLog10 : ℚ → ℤ)
    (rawStr : String) (formattedAmount : Option ℚ) : ℤ :=
  match formattedAmount with
  | none => 18
  | some f =>
    if rawStr = "" ∨ rawStr = "0" ∨ f = 0 then 18
    else
      let raw := parse rawStr
      let ratio := raw / f
      max 0 (min (roundLog10 ratio) 18)

/-! ## Hex-word parsing and signed decode (`_decodeInt256`) -/

/-! ## Definitions: hex-word parsing and signed decode (`_decodeInt256`) -/

/-- Value of one hexadecimal digit; the three ranges are
`'0'`–`'9'` (48–57), `'a'`–`'f'` (97–102), `'A'`–`'F'` (65–70),
exactly the digits `BigInt('0x…')` accepts. -/
def hexDigitVal (c : Char) : ℕ :=
  let n := c.toNat
  if 48 ≤ n ∧ n ≤ 57 then n - 48
  else if 97 ≤ n ∧ n ≤ 102 then n - 87
  else if 65 ≤ n ∧ n ≤ 70 then n - 55
  else 0

/-- Whether a character is a hexadecimal digit (`0-9a-fA-F`). -/
def isHexDigit (c : Char) : Bool :=
  let n := c.toNat
  (48 ≤ n ∧ n ≤ 57) ∨ (97 ≤ n ∧ n ≤ 102) ∨ (65 ≤ n ∧ n ≤ 70)

/-- Unsigned value of a hex-digit string (most significant digit first). -/
def hexVal (cs : List Char) : ℕ :=
  cs.foldl (fun a c => a * 16 + hexDigitVal c) 0

/-- `BigInt('0x' + w)`: succeeds with the unsigned value when `w` is a
non-empty string of hex digits, otherwise throws (`none`). -/
def parseHexWord (cs : List Char) : Option ℕ :=
  if cs ≠ [] ∧ cs.all isHexDigit then some (hexVal cs) else none

/-- `(1n << 255n) - 1n`, the largest signed-positive word value. -/
def MAX_INT256 : ℤ := 2 ^ 255 - 1

/-- `_decodeInt256(hexWord)`: `BigInt('0x' + hexWord)` (which may
throw, hence `Option`), then two's-complement adjustment:
values above `MAX_INT256` have `1n << 256n` subtracted. -/
def _decodeInt256 (hexWord : List Char) : Option ℤ :=
  (parseHexWord hexWord).map fun (val : ℕ) =>
    if (val : ℤ) > MAX_INT256 then (val : ℤ) - 2 ^ 256 else (val : ℤ)

/-! ## Definitions: event log decoder (`TransactionHistoryFetcher.decodeEvent`) -/

/-- One raw log entry as consumed by `decodeEvent`: the packed `data`
hex string and the metadata fields the decoder reads.  `timeStamp`
holds the value of `parseInt(log.timeStamp, 16)` — Etherscan delivers
the timestamp as a hex string and the claims quantify over well-formed
entries, for which that parse yields this natural number. -/
structure RawLog where
  data : String
  timeStamp : ℕ
  transactionHash : String

/-- The per-vault context assembled by `fetchForPositions` and consumed
by `decodeEvent` (`nftIds` is a JS `Set` of BigInt ids, modelled as a
duplicate-free insertion-ordered list). -/
structure VaultInfo where
  nftIds : List ℕ
  supplyToken : String
  borrowToken : String
  supplySymbol : String
  borrowSymbol : String
  supplyName : String
  borrowName : String
  supplyDecimals : ℕ
  borrowDecimals : ℕ
deriving DecidableEq

/-- One decoded transaction row, with the fields the decoder writes
(`date` is the JS `Date` value, i.e. the epoch-millisecond number
`timestamp * 1000`). -/
structure Row where
  date : ℕ
  timestamp : ℕ
  description : String
  asset : String
  amount : ℚ
  symbol : String
  usdValue : ℚ
  txHash : String
  isRepayOrWithdraw : Bool
deriving DecidableEq

/-- `prices[symbol] || 0`: price lookup with fallback 0 for a missing
symbol. -/
def priceOf (prices : List (String × ℚ)) (s : String) : ℚ :=
  (prices.lookup s).getD 0

/-- Word `i` of the packed payload: `data.slice(2)` then
`hex.slice(i * 64, (i + 1) * 64)`. -/
def logWord (log : RawLog) (i : ℕ) : List Char :=
  ((log.data.toList.drop 2).drop (i * 64)).take 64

/-- `decodeEvent(log, vaultInfo, prices)`.  Mirrors the source: reject
a payload shorter than `2 + 64*5` characters; parse word 1 as the
nftId and words 2 and 3 as signed deltas (any `BigInt` parse failure
is the thrown-and-caught case, `none`); emit one collateral row when
the collateral delta is non-zero and one debt row when the debt delta
is non-zero; return `none` when no row was produced. -/
def decodeEvent (log : RawLog) (vaultInfo : VaultInfo)
    (prices : List (String × ℚ)) : Option (ℕ × List Row) :=
  if log.data.toList.length < 2 + 64 * 5 then none
  else
    match parseHexWord (logWord log 1), _decodeInt256 (logWord log 2),
        _decodeInt256 (logWord log 3) with
    | some nftId, some colAmt, some debtAmt =>
      let timestamp := log.timeStamp
      let date := timestamp * 1000
      let txHash := log.transactionHash
      let colRows : List Row :=
        if colAmt ≠ 0 then
          let isDeposit := colAmt > 0
          let absAmt : ℕ := (if colAmt > 0 then colAmt else -colAmt).toNat
          let amount := _formatUnits absAmt vaultInfo.supplyDecimals
          let price := priceOf prices vaultInfo.supplySymbol
          [{ date := date, timestamp := timestamp,
             description := if isDeposit then "Collateral Deposit"
               else "Collateral Withdrawal",
             asset := vaultInfo.supplySymbol,
             amount := if isDeposit then amount else -amount,
             symbol := vaultInfo.supplySymbol,
             usdValue := |amount| * price,
             txHash := txHash,
             isRepayOrWithdraw := !isDeposit }]
        else []
      let debtRows : List Row :=
        if debtAmt ≠ 0 then
          let isBorrow := debtAmt > 0
          let absAmt : ℕ := (if debtAmt > 0 then debtAmt else -debtAmt).toNat
          let amount := _formatUnits absAmt vaultInfo.borrowDecimals
          let price := priceOf prices vaultInfo.borrowSymbol
          [{ date := date, timestamp := timestamp,
             description := if isBorrow then "Margin Loan"
               else "Loan Repayment",
             asset := vaultInfo.borrowSymbol,
             amount := if isBorrow then amount else -amount,
             symbol := vaultInfo.borrowSymbol,
             usdValue := |amount| * price,
             txHash := txHash,
             isRepayOrWithdraw := !isBorrow }]
        else []
      let rows := colRows ++ debtRows
      if rows.length = 0 then none else some (nftId, rows)
    | _, _, _ => none

/-! ## Definitions: paginated fetch controller (`fetchVaultEvents`) -/

/-- `MAX_RESULTS_PER_PAGE = 1000`, Etherscan's page-size maximum. -/
def MAX_RESULTS_PER_PAGE : ℕ := 1000

/-- The disjoint response cases `fetchVaultEvents` distinguishes, in
the source's branch order: `!response.ok` (`httpError`); body with
`status === '0'` and `message === 'No records found'` (`noRecords`);
body with `status === '0'` and a rate-limit string in `result`
(`rateLimit`); any other `status === '0'` body (`apiError`); and a
success body whose `result` is the page's log list (`apiOk`, covering
`json.result || []`). -/
inductive PageResponse (α : Type) where
  | httpError (status : ℕ)
  | noRecords
  | rateLimit
  | apiError
  | apiOk (logs : List α)
deriving DecidableEq

/-- Outcome of the fetch loop: normal return of the collected logs, a
thrown `Error` (from `!response.ok`) carrying the HTTP status, or loop
fuel exhaustion (the modelled loop is given a finite request budget;
the source's `while (true)` corresponds to unbounded fuel). -/
inductive FetchResult (α : Type) where
  | ok (logs : List α)
  | thrown (status : ℕ)
  | outOfFuel
deriving DecidableEq

/-- One iteration structure of `fetchVaultEvents`'s `while (true)`
loop, with the page source abstracted as `src : page → response`.
State: remaining `fuel` (number of requests still allowed), current
`page` (starts at 1), collected `acc` (`allLogs`), and the trace
`reqs` of pages requested so far.  A rate-limit response re-issues the
same page; a full page (`¬ logs.length < MAX_RESULTS_PER_PAGE`)
advances to `page + 1`; a short page, a 'No records found' body or
another `status '0'` body end the loop returning `acc`; a non-OK HTTP
response throws. -/
def fetchGo {α : Type} (src : ℕ → PageResponse α) :
    ℕ → ℕ → List α → List ℕ → FetchResult α × List ℕ
  | 0, _, _, reqs => (.outOfFuel, reqs)
  | fuel + 1, page, acc, reqs =>
    match src page with
    | .httpError s => (.thrown s, reqs ++ [page])
    | .noRecords => (.ok acc, reqs ++ [page])
    | .rateLimit => fetchGo src fuel page acc (reqs ++ [page])
    | .apiError => (.ok acc, reqs ++ [page])
    | .apiOk logs =>
      if logs.length < MAX_RESULTS_PER_PAGE then (.ok (acc ++ logs), reqs ++ [page])
      else fetchGo src fuel (page + 1) (acc ++ logs) (reqs ++ [page])

/-- `fetchVaultEvents`: run the pagination loop from page 1 with empty
`allLogs`.  Returns the outcome together with the ordered trace of
page requests issued. -/
def fetchVaultEvents {α : Type} (src : ℕ → PageResponse α) (fuel : ℕ) :
    FetchResult α × List ℕ :=
  fetchGo src fuel 1 [] []

/-- The log list carried by a page response (empty for non-`apiOk`). -/
def pageLogs {α : Type} : PageResponse α → List α
  | .apiOk logs => logs
  | _ => []

/-! ## Definitions: transaction history assembler (`fetchForPositions`) -/

/-- One formatted position, with the fields `fetchForPositions` reads:
vault address and nftId, the token addresses and display metadata
copied into the vault context, and the raw/formatted amounts the
decimals inference consumes (`pos.supply` / `pos.borrow` raw strings,
`pos.formatted.collateral.amount` / `pos.formatted.debt.amount`). -/
structure Position where
  vaultAddress : String
  nftId : ℕ
  supplyToken : String
  borrowToken : String
  collateralSymbol : String
  debtSymbol : String
  collateralName : String
  debtName : String
  supply : String
  borrow : String
  collateralAmount : Option ℚ
  debtAmount : Option ℚ
deriving DecidableEq

/-- `_getDecimals(pos, type)`: dispatch to `_inferDecimals` on the
supply or borrow side.  The JS value is used directly as a decimals
count; it is non-negative for every input (the C10 clamp), so the
`ℕ`-valued `toNat` image is faithful. -/
def _getDecimals (parse : String → ℚ) (roundLog10 : ℚ → ℤ)
    (pos : Position) (ty : String) : ℕ :=
  if ty = "supply" then
    (_inferDecimals parse roundLog10 pos.supply pos.collateralAmount).toNat
  else
    (_inferDecimals parse roundLog10 pos.borrow pos.debtAmount).toNat

/-- The vault context created when a vault address is first seen
(`vaultMap.set(vaultAddr, { nftIds: new Set(), … })`). -/
def freshInfo (parse : String → ℚ) (roundLog10 : ℚ → ℤ)
    (pos : Position) : VaultInfo where
  nftIds := []
  supplyToken := pos.supplyToken
  borrowToken := pos.borrowToken
  supplySymbol := pos.collateralSymbol
  borrowSymbol := pos.debtSymbol
  supplyName := pos.collateralName
  borrowName := pos.debtName
  supplyDecimals := _getDecimals parse roundLog10 pos "supply"
  borrowDecimals := _getDecimals parse roundLog10 pos "borrow"

/-- `nftIds.add(BigInt(pos.nftId))`: JS `Set` insertion, modelled as
append-if-absent on the insertion-ordered id list. -/
def addNftId (n : ℕ) (info : VaultInfo) : VaultInfo :=
  if n ∈ info.nftIds then info else { info with nftIds := info.nftIds ++ [n] }

/-- One iteration of the grouping loop: create the vault entry if the
address is new, then add the position's nftId to that entry.  The JS
`Map` is modelled as an insertion-ordered association list (an address
is appended only when absent, so keys stay unique and the map update
touches exactly the matching entry). -/
def addPosition (parse : String → ℚ) (roundLog10 : ℚ → ℤ)
    (m : List (String × VaultInfo)) (pos : Position) :
    List (String × VaultInfo) :=
  let m1 := if (m.lookup pos.vaultAddress).isSome then m
    else m ++ [(pos.vaultAddress, freshInfo parse roundLog10 pos)]
  m1.map fun e => if e.1 = pos.vaultAddress then (e.1, addNftId pos.nftId e.2) else e

/-- The `vaultMap` built by the first loop of `fetchForPositions`. -/
def buildVaultMap (parse : String → ℚ) (roundLog10 : ℚ → ℤ)
    (positions : List Position) : List (String × VaultInfo) :=
  positions.foldl (addPosition parse roundLog10) []

/-- Insert a row into a descending-sorted list, after every row with a
strictly larger timestamp and before ties (stability). -/
def insertDesc (x : Row) : List Row → List Row
  | [] => [x]
  | y :: ys => if x.timestamp < y.timestamp then y :: insertDesc x ys else x :: y :: ys

/-- `allTransactions.sort((a, b) => b.timestamp - a.timestamp)`:
descending by timestamp.  `Array.prototype.sort` is stable
(ECMAScript 2019), and the stable descending-sorted permutation of a
list is unique, so this stable insertion sort denotes the same
function as the engine's sort. -/
def sortByTimestampDesc : List Row → List Row
  | [] => []
  | x :: xs => insertDesc x (sortByTimestampDesc xs)

/-- `fetchForPositions` before its final sort: iterate the vault map
in insertion order, fetch that vault's event stream (the paginated
fetch is abstracted as the per-vault log list it returns), decode each
log, drop logs whose decoded nftId is not in the vault's owned-id set,
and concatenate the surviving rows. -/
def fetchForPositionsUnsorted (parse : String → ℚ) (roundLog10 : ℚ → ℤ)
    (positions : List Position) (fetch : String → List RawLog)
    (prices : List (String × ℚ)) : List Row :=
  (buildVaultMap parse roundLog10 positions).flatMap fun e =>
    (fetch e.1).flatMap fun log =>
      match decodeEvent log e.2 prices with
      | none => []
      | some (nftId, rows) => if nftId ∈ e.2.nftIds then rows else []

/-- `fetchForPositions(positions, prices)`: the collected rows, sorted
descending by timestamp. -/
def fetchForPositions (parse : String → ℚ) (roundLog10 : ℚ → ℤ)
    (positions : List Position) (fetch : String → List RawLog)
    (prices : List (String × ℚ)) : List Row :=
  sortByTimestampDesc (fetchForPositionsUnsorted parse roundLog10 positions fetch prices)

/-! ## Definitions: concrete instances for witnesses -/

/-- A concrete stand-in for `parseFloat` used only to instantiate
witnesses of theorems quantified over the abstracted float pipeline. -/
def parseConst : String → ℚ := fun _ => 100

/-- A concrete stand-in for `Math.round ∘ Math.log10` used only to
instantiate witnesses. -/
def roundLog10Const : ℚ → ℤ := fun _ => 25

/-- Concrete two-page source for the C5 witness: page 1 carries exactly
1000 rows, page 2 carries 400, later pages would report no records. -/
def twoPageSrc : ℕ → PageResponse ℕ := fun p =>
  if p = 1 then .apiOk (List.replicate 1000 0)
  else if p = 2 then .apiOk (List.replicate 400 0)
  else .noRecords

/-- Concrete source for the C6 counterexample: a full page 1, then a
non-success HTTP status on page 2. -/
def httpFailSrc : ℕ → PageResponse ℕ := fun p =>
  if p = 1 then .apiOk (List.replicate 1000 0) else .httpError 500

/-- Concrete source for the C6 amended-claim witness: a full page 1,
then a `status '0'` body that is neither a rate limit nor
'No records found'. -/
def apiErrSrc : ℕ → PageResponse ℕ := fun p =>
  if p = 1 then .apiOk (List.replicate 1000 0) else .apiError

/-- A well-formed `LogOperate` payload: word 0 the user address, word 1
the nftId `1`, word 2 the collateral delta `+5`, word 3 the debt delta
`-3` (two's complement `0xff…fd`), word 4 the recipient. -/
def sampleData : String := "0x" ++
  "0000000000000000000000000000000000000000000000000000000000000000" ++
  "0000000000000000000000000000000000000000000000000000000000000001" ++
  "0000000000000000000000000000000000000000000000000000000000000005" ++
  "fffffffffffffffffffffffffffffffffffffffffffffffffffffffffffffffd" ++
  "0000000000000000000000000000000000000000000000000000000000000000"

/-- A concrete raw log carrying `sampleData`. -/
def sampleRawLog : RawLog where
  data := sampleData
  timeStamp := 100
  transactionHash := "0xtx"

/-- A concrete vault context owning nftId `1`. -/
def sampleVaultInfo : VaultInfo where
  nftIds := [1]
  supplyToken := "0xsupply"
  borrowToken := "0xborrow"
  supplySymbol := "WETH"
  borrowSymbol := "USDC"
  supplyName := "Wrapped Ether"
  borrowName := "USD Coin"
  supplyDecimals := 18
  borrowDecimals := 18

/-- A concrete owned position on the sample vault (raw amount strings
empty, so the decimals inference takes its default 18). -/
def samplePosition : Position where
  vaultAddress := "0xvault"
  nftId := 1
  supplyToken := "0xsupply"
  borrowToken := "0xborrow"
  collateralSymbol := "WETH"
  debtSymbol := "USDC"
  collateralName := "Wrapped Ether"
  debtName := "USD Coin"
  supply := ""
  borrow := ""
  collateralAmount := none
  debtAmount := none

/-- A log source delivering the sample log for every vault address. -/
def sampleFetch : String → List RawLog := fun _ => [sampleRawLog]

/-- The deposit row the pipeline derives from `sampleRawLog` for the
sample position. -/
def sampleRow : Row where
  date := 100 * 1000
  timestamp := 100
  description := "Collateral Deposit"
  asset := "WETH"
  amount := _formatUnits 5 18
  symbol := "WETH"
  usdValue := |_formatUnits 5 18| * priceOf [] "WETH"
  txHash := "0xtx"
  isRepayOrWithdraw := false

/-! ## Theorems: unit converter and signed decode -/

theorem formatUnits_val (value decimals : ℕ) :
    _formatUnits value decimals = (value : ℚ) / (10 ^ decimals : ℕ) := by
  have h0 : ((10 ^ decimals : ℕ) : ℚ) ≠ 0 := by positivity
  show ((value / 10 ^ decimals : ℕ) : ℚ) + ((value % 10 ^ decimals : ℕ) : ℚ) /
      ((10 ^ decimals : ℕ) : ℚ) = (value : ℚ) / ((10 ^ decimals : ℕ) : ℚ)
  rw [eq_div_iff h0, add_mul, div_mul_cancel₀ _ h0]
  exact_mod_cast congrArg (fun n : ℕ => (n : ℚ))
    (by rw [mul_comm]; exact Nat.div_add_mod value (10 ^ decimals) :
      value / 10 ^ decimals * 10 ^ decimals + value % 10 ^ decimals = value)

/-! ## Decimals inference (`TransactionHistoryFetcher._inferDecimals`) -/

theorem hexDigitVal_lt (c : Char) : hexDigitVal c < 16 := by
  simp only [hexDigitVal]
  split_ifs <;> omega

theorem hexVal_foldl_lt (cs : List Char) :
    ∀ a : ℕ, cs.foldl (fun a c => a * 16 + hexDigitVal c) a < 16 ^ cs.length * (a + 1) := by
  induction cs with
  | nil => intro a; norm_num
  | cons c cs ih =>
    intro a
    have h1 := ih (a * 16 + hexDigitVal c)
    have h2 : hexDigitVal c < 16 := hexDigitVal_lt c
    calc List.foldl (fun a c => a * 16 + hexDigitVal c) (a * 16 + hexDigitVal c) cs
        < 16 ^ cs.length * (a * 16 + hexDigitVal c + 1) := h1
      _ ≤ 16 ^ cs.length * (16 * (a + 1)) := by
          exact Nat.mul_le_mul_left _ (by omega)
      _ = 16 ^ (c :: cs).length * (a + 1) := by
          simp [List.length_cons, pow_succ]; ring

theorem hexVal_lt (cs : List Char) : hexVal cs < 16 ^ cs.length := by
  have h := hexVal_foldl_lt cs 0
  norm_num at h
  exact h

/-! ## Claim theorems for the unit converter -/

theorem rateToApy_eq_spec (r : ℤ) : rateToApy r = rateToApySpec r := by
  simp only [rateToApy, rateToApySpec]
  have habs : (if r < 0 then -r else r) = (r.natAbs : ℤ) := by split_ifs <;> omega
  rw [habs]
  have hc : ((r.natAbs : ℤ) > 10 ^ 18) ↔ (10 ^ 18 < r.natAbs) := by exact_mod_cast Iff.rfl
  by_cases h : 10 ^ 18 < r.natAbs
  · rw [if_pos (hc.mpr h), if_pos h]
    rw [show ((r.natAbs : ℤ) / 10 ^ 23 : ℤ) = ((r.natAbs / 10 ^ 23 : ℕ) : ℤ) from
      (Int.ofNat_ediv r.natAbs (10 ^ 23)).symm.trans (by norm_cast)]
    simp only [Int.cast_natCast]
  · rw [if_neg (fun hh => h (hc.mp hh)), if_neg h]
    simp only [Int.cast_natCast]

theorem rateToApy_neg (r : ℤ) : rateToApy (-r) = -rateToApy r := by
  rcases lt_trichotomy r 0 with hr | hr | hr
  · have h1 : ¬(-r < 0) := by omega
    simp only [rateToApy, if_pos hr, if_neg h1, neg_neg]
    split_ifs <;> ring
  · subst hr; norm_num [rateToApy]
  · have h1 : -r < 0 := by omega
    have h2 : ¬(r < 0) := by omega
    simp only [rateToApy, if_pos h1, if_neg h2, neg_neg]
    split_ifs <;> ring

/-- C3: for every signed integer rate `r`, `rateToApy` follows the
spec-stated scale auto-detection — magnitude above `10^18` (strictly)
is divided (integer division) by `10^23` and then by `100`, smaller
magnitudes by `100` — with the input's sign preserved
(`rateToApy (-x) = -rateToApy x`). -/
theorem c3_rateToApy_scale_detect_and_sign (r : ℤ) :
    rateToApy r = rateToApySpec r ∧ rateToApy (-r) = -rateToApy r :=
  ⟨rateToApy_eq_spec r, rateToApy_neg r⟩

/-- C1: a 32-byte word (64 hex digits) of unsigned value `v` decodes to
`v` when `v ≤ 2^255 - 1` and to `v - 2^256` otherwise, exactly over
integers, and every decoded value lies in the `int256` range
`[-2^255, 2^255)`. -/
theorem c1_decodeInt256_twos_complement (w : List Char) (hlen : w.length = 64)
    (hhex : w.all isHexDigit = true) :
    (hexVal w ≤ 2 ^ 255 - 1 → _decodeInt256 w = some ((hexVal w : ℤ))) ∧
    (2 ^ 255 - 1 < hexVal w → _decodeInt256 w = some ((hexVal w : ℤ) - 2 ^ 256)) ∧
    (∀ z, _decodeInt256 w = some z → -(2 ^ 255) ≤ z ∧ z < 2 ^ 255) := by
  have hne : w ≠ [] := by intro h; rw [h] at hlen; simp at hlen
  have hparse : parseHexWord w = some (hexVal w) := by
    unfold parseHexWord; rw [if_pos ⟨hne, hhex⟩]
  have hbound : hexVal w < 2 ^ 256 := by
    have h := hexVal_lt w
    rw [hlen] at h
    calc hexVal w < 16 ^ 64 := h
      _ = 2 ^ 256 := by norm_num
  refine ⟨?_, ?_, ?_⟩
  · intro hle
    simp only [_decodeInt256, hparse, Option.map_some', MAX_INT256]
    rw [if_neg (by omega)]
  · intro hgt
    simp only [_decodeInt256, hparse, Option.map_some', MAX_INT256]
    rw [if_pos (by omega)]
  · intro z hz
    simp only [_decodeInt256, hparse, Option.map_some', MAX_INT256,
      Option.some_inj] at hz
    rw [← hz]
    split_ifs <;> omega

set_option maxRecDepth 40000 in
/-- Witness for C1: the all-ones word decodes to `-1`, the word of
value `1` decodes to `1`, and the word `0x8000…0` (value `2^255`)
decodes to `-2^255`, the minimum representable `int256`. -/
theorem c1_decodeInt256_twos_complement_witness :
    _decodeInt256 (List.replicate 64 'f') = some (-1) ∧
    _decodeInt256 (List.replicate 63 '0' ++ ['1']) = some 1 ∧
    _decodeInt256 ('8' :: List.replicate 63 '0') = some (-(2 ^ 255)) := by
  refine ⟨?_, by decide, by decide⟩
  have h := (c1_decodeInt256_twos_complement (List.replicate 64 'f')
    (by decide) (by decide)).2.1 (by decide)
  rw [h]
  decide

/-- C4: converting a base-unit integer `r` with `d ∈ [0,18]` decimals
to its decimal value and reconstructing base units via
`round(decimal * 10^d)` returns exactly `r`.  (`_formatUnits` is exact
over ℚ; the claim's premise that `r` is representable in floating
precision is what makes the modelled `parseFloat` boundary exact.) -/
theorem c4_formatUnits_roundtrip (r d : ℕ) (_hd : d ≤ 18) :
    round (_formatUnits r d * (10 : ℚ) ^ d) = (r : ℤ) := by
  rw [formatUnits_val]
  have h0 : ((10 ^ d : ℕ) : ℚ) ≠ 0 := by positivity
  rw [show ((10 : ℚ) ^ d) = ((10 ^ d : ℕ) : ℚ) by push_cast; ring,
    div_mul_cancel₀ _ h0]
  exact round_natCast r

/-- Witness for C4 at `r = 12345`, `d = 6`. -/
theorem c4_formatUnits_roundtrip_witness :
    (6 ≤ 18) ∧ round (_formatUnits 12345 6 * (10 : ℚ) ^ 6) = (12345 : ℤ) :=
  ⟨by norm_num, c4_formatUnits_roundtrip 12345 6 (by norm_num)⟩

/-- C9: the raw-to-decimal conversion is total — for every non-negative
integer and every decimals count it produces the exact decimal value
`v / 10^d` (in particular it never fails: the divisor `10^d` is never
zero and the BigInt operations are defined on all inputs) — and in the
degenerate case `decimals = 0` the produced decimal is exactly the
input integer, with a zero fractional remainder (`v % 1 = 0`). -/
theorem c9_formatUnits_total (v d : ℕ) :
    _formatUnits v d * (10 : ℚ) ^ d = (v : ℚ) ∧ _formatUnits v 0 = (v : ℚ) := by
  constructor
  · rw [formatUnits_val]
    have h0 : ((10 ^ d : ℕ) : ℚ) ≠ 0 := by positivity
    rw [show ((10 : ℚ) ^ d) = ((10 ^ d : ℕ) : ℚ) by push_cast; ring,
      div_mul_cancel₀ _ h0]
  · rw [formatUnits_val]
    norm_num

/-- C10: `_inferDecimals` returns the default 18 whenever the raw
string is empty or `"0"` or the formatted amount is missing or zero;
and on every input its result is an integer in `[0, 18]` — so the
decimals later passed to `_formatUnits` are never negative and the
BigInt exponentiation `10n ** BigInt(decimals)` there cannot fail.
The bound holds for every instantiation of the abstracted float
pipeline (`parse`, `roundLog10`), hence for the concrete
`Math.round ∘ Math.log10` one, whatever its rounding or overflow
behavior. -/
theorem c10_inferDecimals_default_and_clamp (parse : String → ℚ)
    (roundLog10 : ℚ → ℤ) (rawStr : String) (fmt : Option ℚ) :
    ((rawStr = "" ∨ rawStr = "0" ∨ fmt = none ∨ fmt = some 0) →
      _inferDecimals parse roundLog10 rawStr fmt = 18) ∧
    (0 ≤ _inferDecimals parse roundLog10 rawStr fmt ∧
      _inferDecimals parse roundLog10 rawStr fmt ≤ 18) := by
  rcases fmt with _ | f
  · exact ⟨fun _ => rfl, by norm_num [_inferDecimals]⟩
  · constructor
    · intro h
      have hcond : rawStr = "" ∨ rawStr = "0" ∨ f = 0 := by
        rcases h with h | h | h | h
        · exact Or.inl h
        · exact Or.inr (Or.inl h)
        · exact absurd h (by simp)
        · exact Or.inr (Or.inr (by injection h))
      simp only [_inferDecimals]
      rw [if_pos hcond]
    · simp only [_inferDecimals]
      split_ifs with h
      · exact ⟨by norm_num, le_refl 18⟩
      · exact ⟨le_max_left 0 _, max_le (by norm_num) (min_le_right _ 18)⟩

/-! ## Event log decoder (`TransactionHistoryFetcher.decodeEvent`) -/

/-- Witness for C10: the `"0"` raw string takes the default, and a
non-degenerate input (whose abstract log-round yields 25) is clamped
into `[0, 18]`. -/
theorem c10_inferDecimals_default_and_clamp_witness :
    _inferDecimals parseConst roundLog10Const "0" (some 5) = 18 ∧
    (0 ≤ _inferDecimals parseConst roundLog10Const "7" (some 5) ∧
      _inferDecimals parseConst roundLog10Const "7" (some 5) ≤ 18) :=
  ⟨(c10_inferDecimals_default_and_clamp parseConst roundLog10Const "0"
      (some 5)).1 (Or.inr (Or.inl rfl)),
    (c10_inferDecimals_default_and_clamp parseConst roundLog10Const "7"
      (some 5)).2⟩

/-! ## Paginated fetch controller (`fetchVaultEvents`) -/

/-! ## Theorems: event log decoder -/

theorem logWord_hex (log : RawLog) (i : ℕ)
    (hhex : (log.data.toList.drop 2).all isHexDigit = true) :
    (logWord log i).all isHexDigit = true := by
  rw [List.all_eq_true] at *
  intro c hc
  exact hhex c (List.mem_of_mem_drop (List.mem_of_mem_take hc))

theorem logWord_length (log : RawLog) (i : ℕ) (hi : i < 5)
    (hlen : log.data.toList.length = 2 + 64 * 5) :
    (logWord log i).length = 64 := by
  simp only [logWord, List.length_take, List.length_drop, hlen]
  omega

theorem logWord_parse (log : RawLog) (i : ℕ) (hi : i < 5)
    (hlen : log.data.toList.length = 2 + 64 * 5)
    (hhex : (log.data.toList.drop 2).all isHexDigit = true) :
    parseHexWord (logWord log i) = some (hexVal (logWord log i)) := by
  have h1 := logWord_length log i hi hlen
  have h2 := logWord_hex log i hhex
  unfold parseHexWord
  rw [if_pos ⟨by intro h; rw [h] at h1; simp at h1, h2⟩]

theorem decodeInt256_parse (w : List Char) (hlen : w.length = 64)
    (hhex : w.all isHexDigit = true) :
    _decodeInt256 w = some (if (hexVal w : ℤ) > MAX_INT256
      then (hexVal w : ℤ) - 2 ^ 256 else (hexVal w : ℤ)) := by
  unfold _decodeInt256 parseHexWord
  rw [if_pos ⟨by intro h; rw [h] at hlen; simp at hlen, hhex⟩, Option.map_some']

/-- C2: for every well-formed raw log (a `0x`-prefixed payload of five
32-byte words), decoding succeeds, yields exactly one row per non-zero
delta side — for the collateral delta a deposit row
(`"Collateral Deposit"`) if positive and a withdrawal row if negative,
for the debt delta a borrow row (`"Margin Loan"`) if positive and a
repayment row (`"Loan Repayment"`) if negative — hence 0, 1 or 2 rows
per log, and when both deltas are zero the decode returns `none`
(`null`), not an error. -/
theorem c2_decodeEvent_rows (log : RawLog) (info : VaultInfo)
    (prices : List (String × ℚ))
    (hlen : log.data.toList.length = 2 + 64 * 5)
    (hhex : (log.data.toList.drop 2).all isHexDigit = true) :
    ∃ col debt, _decodeInt256 (logWord log 2) = some col ∧
      _decodeInt256 (logWord log 3) = some debt ∧
      ((col = 0 ∧ debt = 0) → decodeEvent log info prices = none) ∧
      (¬(col = 0 ∧ debt = 0) →
        ∃ n rows, decodeEvent log info prices = some (n, rows) ∧
          rows.map (fun r => r.description) =
            (if 0 < col then ["Collateral Deposit"]
              else if col < 0 then ["Collateral Withdrawal"] else []) ++
            (if 0 < debt then ["Margin Loan"]
              else if debt < 0 then ["Loan Repayment"] else []) ∧
          rows.length ≤ 2) := by
  have hnotlt : ¬(log.data.toList.length < 2 + 64 * 5) := by omega
  have hn := logWord_parse log 1 (by norm_num) hlen hhex
  obtain ⟨col, hcol⟩ : ∃ c, _decodeInt256 (logWord log 2) = some c :=
    ⟨_, decodeInt256_parse _ (logWord_length log 2 (by norm_num) hlen)
      (logWord_hex log 2 hhex)⟩
  obtain ⟨debt, hdebt⟩ : ∃ c, _decodeInt256 (logWord log 3) = some c :=
    ⟨_, decodeInt256_parse _ (logWord_length log 3 (by norm_num) hlen)
      (logWord_hex log 3 hhex)⟩
  refine ⟨col, debt, hcol, hdebt, ?_, ?_⟩
  · rintro ⟨h1, h2⟩
    subst h1
    subst h2
    simp only [decodeEvent, if_neg hnotlt, hn, hcol, hdebt]
    simp
  · intro hne
    simp only [decodeEvent, if_neg hnotlt, hn, hcol, hdebt]
    split_ifs <;>
      first
        | omega
        | (simp_all <;> exact ⟨_, _, ⟨rfl, rfl⟩, by simp, by simp⟩)

set_option maxRecDepth 100000 in
/-- Witness for C2 at the concrete log with collateral delta `+5` and
debt delta `-3`: the decode yields a deposit row and a repayment row. -/
theorem c2_decodeEvent_rows_witness :
    ∃ col debt, _decodeInt256 (logWord sampleRawLog 2) = some col ∧
      _decodeInt256 (logWord sampleRawLog 3) = some debt ∧
      ((col = 0 ∧ debt = 0) →
        decodeEvent sampleRawLog sampleVaultInfo [] = none) ∧
      (¬(col = 0 ∧ debt = 0) →
        ∃ n rows, decodeEvent sampleRawLog sampleVaultInfo [] = some (n, rows) ∧
          rows.map (fun r => r.description) =
            (if 0 < col then ["Collateral Deposit"]
              else if col < 0 then ["Collateral Withdrawal"] else []) ++
            (if 0 < debt then ["Margin Loan"]
              else if debt < 0 then ["Loan Repayment"] else []) ∧
          rows.length ≤ 2) :=
  c2_decodeEvent_rows sampleRawLog sampleVaultInfo [] (by decide) (by decide)

/-! ## Theorems: paginated fetch controller -/

theorem fetchGo_full_run {α : Type} (src : ℕ → PageResponse α) (k : ℕ) :
    ∀ (fuel p : ℕ) (acc : List α) (reqs : List ℕ), p ≤ k → k - p ≤ fuel →
    (∀ j, p ≤ j → j < k →
      ∃ logs, src j = .apiOk logs ∧ logs.length = MAX_RESULTS_PER_PAGE) →
    fetchGo src fuel p acc reqs =
      fetchGo src (fuel - (k - p)) k
        (acc ++ (List.range' p (k - p)).flatMap (fun j => pageLogs (src j)))
        (reqs ++ List.range' p (k - p)) := by
  intro fuel
  induction fuel with
  | zero =>
    intro p acc reqs hpk hfuel _hfull
    have hp : p = k := by omega
    subst hp
    simp
  | succ fuel ih =>
    intro p acc reqs hpk hfuel hfull
    rcases eq_or_lt_of_le hpk with hp | hp
    · subst hp
      simp
    · obtain ⟨logs, hsrc, hlen⟩ := hfull p le_rfl hp
      have hstep : fetchGo src (fuel + 1) p acc reqs =
          fetchGo src fuel (p + 1) (acc ++ logs) (reqs ++ [p]) := by
        simp only [fetchGo, hsrc]
        rw [if_neg (by omega)]
      rw [hstep, ih (p + 1) (acc ++ logs) (reqs ++ [p]) (by omega) (by omega)
        (fun j h1 h2 => hfull j (by omega) h2)]
      have hrange : List.range' p (k - p) = p :: List.range' (p + 1) (k - (p + 1)) := by
        have hkp : k - p = (k - (p + 1)) + 1 := by omega
        rw [hkp]
        rfl
      rw [hrange]
      simp only [List.flatMap_cons, hsrc]
      have hfuel2 : fuel + 1 - (k - p) = fuel - (k - (p + 1)) := by omega
      rw [hfuel2]
      simp [pageLogs, List.append_assoc]

/-- C5: for every log source whose pages 1..k-1 are full
(`MAX_RESULTS_PER_PAGE` rows) and whose page `k` is the first shorter
page, `fetchVaultEvents` (given enough request budget) terminates and
returns exactly the concatenation of pages 1 through `k`, and its
request trace is exactly `[1, …, k]` — no request is issued for any
later page. -/
theorem c5_fetchVaultEvents_pagination {α : Type} (src : ℕ → PageResponse α)
    (k fuel : ℕ) (hk : 1 ≤ k) (hfuel : k ≤ fuel)
    (hfull : ∀ j, 1 ≤ j → j < k →
      ∃ logs, src j = .apiOk logs ∧ logs.length = MAX_RESULTS_PER_PAGE)
    (hshort : ∃ logs, src k = .apiOk logs ∧ logs.length < MAX_RESULTS_PER_PAGE) :
    fetchVaultEvents src fuel =
      (.ok ((List.range' 1 k).flatMap fun j => pageLogs (src j)),
        List.range' 1 k) := by
  obtain ⟨logs, hsrc, hlt⟩ := hshort
  unfold fetchVaultEvents
  rw [fetchGo_full_run src k fuel 1 [] [] hk (by omega) hfull]
  obtain ⟨f, hf⟩ : ∃ f, fuel - (k - 1) = f + 1 := ⟨fuel - (k - 1) - 1, by omega⟩
  rw [hf]
  simp only [fetchGo, hsrc, if_pos hlt, List.nil_append]
  have hrange : List.range' 1 k = List.range' 1 (k - 1) ++ [k] := by
    have h1 : k = (k - 1) + 1 := by omega
    conv_lhs => rw [h1]
    rw [List.range'_concat]
    congr 2
    omega
  rw [hrange]
  simp [hsrc, pageLogs]

/-- Witness for C5: with 1000 rows on page 1 and 400 on page 2, the
fetch stops after page 2 with the 1400 concatenated rows and the
request trace `[1, 2]` — page 3 is never requested. -/
theorem c5_fetchVaultEvents_pagination_witness :
    fetchVaultEvents twoPageSrc 2 =
      (.ok ((List.range' 1 2).flatMap fun j => pageLogs (twoPageSrc j)),
        List.range' 1 2) ∧
    ((List.range' 1 2).flatMap fun j => pageLogs (twoPageSrc j)).length = 1400 ∧
    List.range' 1 2 = [1, 2] := by
  refine ⟨c5_fetchVaultEvents_pagination twoPageSrc 2 2 (by norm_num) le_rfl
    ?_ ?_, ?_, by rfl⟩
  · intro j h1 h2
    have hj : j = 1 := by omega
    subst hj
    exact ⟨_, rfl, by rw [List.length_replicate]; rfl⟩
  · refine ⟨_, rfl, ?_⟩
    rw [List.length_replicate]
    norm_num [MAX_RESULTS_PER_PAGE]
  · rw [show List.range' 1 2 = [1, 2] from rfl]
    rw [show (([1, 2] : List ℕ).flatMap fun j => pageLogs (twoPageSrc j)) =
      pageLogs (twoPageSrc 1) ++ (pageLogs (twoPageSrc 2) ++ []) from rfl]
    rw [show twoPageSrc 1 = .apiOk (List.replicate 1000 0) from rfl,
      show twoPageSrc 2 = .apiOk (List.replicate 400 0) from rfl]
    show (List.replicate 1000 0 ++ (List.replicate 400 0 ++ ([] : List ℕ))).length = 1400
    rw [List.append_nil, List.length_append, List.length_replicate,
      List.length_replicate]

set_option maxRecDepth 40000 in
/-- Counterexample to C6 as stated: when page 2 answers with a
non-success HTTP status after a full page 1, `fetchVaultEvents` throws
(`Error('Etherscan API error: …')`) instead of returning the 1000
already-collected entries — so the claim's "every kind of error
response, including non-success HTTP status" fails. -/
theorem c6_counterexample_http_error_discards :
    (fetchVaultEvents httpFailSrc 2).1 = FetchResult.thrown 500 ∧
    (fetchVaultEvents httpFailSrc 2).1 ≠ FetchResult.ok (List.replicate 1000 0) := by
  have h : fetchVaultEvents httpFailSrc 2 = (.thrown 500, [1, 2]) := by decide
  rw [h]
  exact ⟨rfl, by simp⟩

/-- C6 (amended): an error response delivered in the API body — a
`status '0'` answer that is neither a rate-limit indication nor
'No records found' — aborts the fetch while still returning every log
entry collected from the pages fetched before the error; a non-success
HTTP status, by contrast, throws an exception and the collected
entries are discarded. -/
theorem c6_fetch_error_preserves_collected {α : Type} (src : ℕ → PageResponse α)
    (k fuel : ℕ) (hk : 1 ≤ k) (hfuel : k ≤ fuel)
    (hfull : ∀ j, 1 ≤ j → j < k →
      ∃ logs, src j = .apiOk logs ∧ logs.length = MAX_RESULTS_PER_PAGE) :
    (src k = .apiError →
      fetchVaultEvents src fuel =
        (.ok ((List.range' 1 (k - 1)).flatMap fun j => pageLogs (src j)),
          List.range' 1 k)) ∧
    (∀ s, src k = .httpError s →
      fetchVaultEvents src fuel = (.thrown s, List.range' 1 k)) := by
  have hrange : List.range' 1 (k - 1) ++ [k] = List.range' 1 k := by
    have h1 : k = (k - 1) + 1 := by omega
    conv_rhs => rw [h1]
    rw [List.range'_concat]
    congr 2
    omega
  obtain ⟨f, hf⟩ : ∃ f, fuel - (k - 1) = f + 1 := ⟨fuel - (k - 1) - 1, by omega⟩
  constructor
  · intro hsrc
    unfold fetchVaultEvents
    rw [fetchGo_full_run src k fuel 1 [] [] hk (by omega) hfull, hf]
    simp only [fetchGo, hsrc, List.nil_append]
    rw [hrange]
  · intro s hsrc
    unfold fetchVaultEvents
    rw [fetchGo_full_run src k fuel 1 [] [] hk (by omega) hfull, hf]
    simp only [fetchGo, hsrc, List.nil_append]
    rw [hrange]

/-- Witness for the amended C6: with a full page 1, an API-body error
on page 2 yields the collected page-1 logs with request trace `[1, 2]`,
while an HTTP 500 on page 2 yields a thrown error. -/
theorem c6_fetch_error_preserves_collected_witness :
    fetchVaultEvents apiErrSrc 2 =
      (.ok ((List.range' 1 1).flatMap fun j => pageLogs (apiErrSrc j)),
        List.range' 1 2) ∧
    fetchVaultEvents httpFailSrc 2 = (.thrown 500, List.range' 1 2) := by
  constructor
  · exact (c6_fetch_error_preserves_collected apiErrSrc 2 2 (by norm_num) le_rfl
      (fun j h1 h2 => by
        have hj : j = 1 := by omega
        subst hj
        exact ⟨_, rfl, by rw [List.length_replicate]; rfl⟩)).1 rfl
  · exact (c6_fetch_error_preserves_collected httpFailSrc 2 2 (by norm_num) le_rfl
      (fun j h1 h2 => by
        have hj : j = 1 := by omega
        subst hj
        exact ⟨_, rfl, by rw [List.length_replicate]; rfl⟩)).2 500 rfl

/-! ## Transaction history assembler (`fetchForPositions`) -/

/-! ## Theorems: transaction history assembler -/

theorem mem_insertDesc (x z : Row) (l : List Row) :
    z ∈ insertDesc x l ↔ z = x ∨ z ∈ l := by
  induction l with
  | nil => simp [insertDesc]
  | cons y ys ih =>
    unfold insertDesc
    split_ifs with h
    · simp only [List.mem_cons, ih]
      tauto
    · simp only [List.mem_cons]

theorem insertDesc_pairwise (x : Row) (l : List Row)
    (h : l.Pairwise (fun a b => b.timestamp ≤ a.timestamp)) :
    (insertDesc x l).Pairwise (fun a b => b.timestamp ≤ a.timestamp) := by
  induction l with
  | nil => simp [insertDesc]
  | cons y ys ih =>
    rw [List.pairwise_cons] at h
    unfold insertDesc
    split_ifs with hx
    · rw [List.pairwise_cons]
      refine ⟨fun z hz => ?_, ih h.2⟩
      rcases (mem_insertDesc x z ys).mp hz with hzx | hzy
      · rw [hzx]; omega
      · exact h.1 z hzy
    · rw [List.pairwise_cons]
      refine ⟨fun z hz => ?_, List.pairwise_cons.mpr h⟩
      rcases List.mem_cons.mp hz with hzy | hzys
      · rw [hzy]; omega
      · have := h.1 z hzys; omega

theorem insertDesc_filter (x : Row) (l : List Row) (t : ℕ) :
    (insertDesc x l).filter (fun r => r.timestamp = t) =
      if x.timestamp = t then x :: l.filter (fun r => r.timestamp = t)
      else l.filter (fun r => r.timestamp = t) := by
  induction l with
  | nil => unfold insertDesc; split_ifs with h <;> simp [List.filter, h]
  | cons y ys ih =>
    unfold insertDesc
    split_ifs with hx ht
    · have hy : ¬(y.timestamp = t) := by omega
      simp only [List.filter_cons, ih, if_pos ht]
      simp [hy]
    · simp only [List.filter_cons, ih, if_neg ht]
    · simp only [List.filter_cons]
      split_ifs <;> simp_all
    · simp only [List.filter_cons]
      split_ifs <;> simp_all

theorem sortDesc_pairwise (l : List Row) :
    (sortByTimestampDesc l).Pairwise (fun a b => b.timestamp ≤ a.timestamp) := by
  induction l with
  | nil => simp [sortByTimestampDesc]
  | cons x xs ih => exact insertDesc_pairwise x _ ih

theorem sortDesc_filter (l : List Row) (t : ℕ) :
    (sortByTimestampDesc l).filter (fun r => r.timestamp = t) =
      l.filter (fun r => r.timestamp = t) := by
  induction l with
  | nil => rfl
  | cons x xs ih =>
    show (insertDesc x (sortByTimestampDesc xs)).filter (fun r => r.timestamp = t) = _
    rw [insertDesc_filter, List.filter_cons]
    split_ifs with h <;> simp_all

theorem mem_sortDesc (z : Row) (l : List Row) :
    z ∈ sortByTimestampDesc l ↔ z ∈ l := by
  induction l with
  | nil => simp [sortByTimestampDesc]
  | cons x xs ih =>
    show z ∈ insertDesc x (sortByTimestampDesc xs) ↔ _
    rw [mem_insertDesc, ih]
    simp

/-- C7: the assembled ledger is sorted descending by timestamp, and
rows with equal timestamps keep their encounter order — for every
timestamp the sorted ledger's rows with that timestamp are exactly the
pre-sort (encounter-ordered) rows with that timestamp, in the same
order (stability). -/
theorem c7_ledger_sorted_descending_stable (parse : String → ℚ)
    (roundLog10 : ℚ → ℤ) (positions : List Position)
    (fetch : String → List RawLog) (prices : List (String × ℚ)) :
    (fetchForPositions parse roundLog10 positions fetch prices).Pairwise
      (fun a b => b.timestamp ≤ a.timestamp) ∧
    ∀ t, (fetchForPositions parse roundLog10 positions fetch prices).filter
        (fun r => r.timestamp = t) =
      (fetchForPositionsUnsorted parse roundLog10 positions fetch prices).filter
        (fun r => r.timestamp = t) :=
  ⟨sortDesc_pairwise _, fun t => sortDesc_filter _ t⟩

theorem mem_addNftId (n k : ℕ) (info : VaultInfo) :
    n ∈ (addNftId k info).nftIds ↔ n ∈ info.nftIds ∨ n = k := by
  unfold addNftId
  split_ifs with h
  · constructor
    · exact fun hn => Or.inl hn
    · rintro (hn | hn)
      · exact hn
      · rw [hn]; exact h
  · simp

theorem mem_addPosition (parse : String → ℚ) (roundLog10 : ℚ → ℤ)
    (m : List (String × VaultInfo)) (p : Position) (addr : String)
    (info : VaultInfo) (n : ℕ)
    (hmem : (addr, info) ∈ addPosition parse roundLog10 m p)
    (hn : n ∈ info.nftIds) :
    (∃ info₀, (addr, info₀) ∈ m ∧ n ∈ info₀.nftIds) ∨
      (p.vaultAddress = addr ∧ p.nftId = n) := by
  unfold addPosition at hmem
  rw [List.mem_map] at hmem
  obtain ⟨e, he, hfe⟩ := hmem
  obtain ⟨a, i⟩ := e
  by_cases hkey : a = p.vaultAddress
  · rw [if_pos hkey] at hfe
    have ha : a = addr := congrArg Prod.fst hfe
    have hi : addNftId p.nftId i = info := congrArg Prod.snd hfe
    rw [← hi, mem_addNftId] at hn
    rcases hn with hn | hn
    · split_ifs at he with hlook
      · exact Or.inl ⟨i, ha ▸ he, hn⟩
      · rcases List.mem_append.mp he with hem | hes
        · exact Or.inl ⟨i, ha ▸ hem, hn⟩
        · have hfr : i = freshInfo parse roundLog10 p :=
            congrArg Prod.snd (List.mem_singleton.mp hes)
          rw [hfr] at hn
          simp [freshInfo] at hn
    · exact Or.inr ⟨by rw [← hkey]; exact ha, hn.symm⟩
  · rw [if_neg hkey] at hfe
    have ha : a = addr := congrArg Prod.fst hfe
    have hi : i = info := congrArg Prod.snd hfe
    rw [ha, hi] at he
    rw [ha] at hkey
    split_ifs at he with hlook
    · exact Or.inl ⟨info, he, hn⟩
    · rcases List.mem_append.mp he with hem | hes
      · exact Or.inl ⟨info, hem, hn⟩
      · exact absurd (congrArg Prod.fst (List.mem_singleton.mp hes)) hkey

theorem buildVaultMap_owned (parse : String → ℚ) (roundLog10 : ℚ → ℤ) :
    ∀ (ps : List Position) (m : List (String × VaultInfo)) (addr : String)
      (info : VaultInfo) (n : ℕ),
      (addr, info) ∈ ps.foldl (addPosition parse roundLog10) m →
      n ∈ info.nftIds →
      (∃ info₀, (addr, info₀) ∈ m ∧ n ∈ info₀.nftIds) ∨
        (∃ pos ∈ ps, pos.vaultAddress = addr ∧ pos.nftId = n) := by
  intro ps
  induction ps with
  | nil =>
    intro m addr info n hmem hn
    exact Or.inl ⟨info, hmem, hn⟩
  | cons p ps ih =>
    intro m addr info n hmem hn
    rcases ih (addPosition parse roundLog10 m p) addr info n hmem hn with h | h
    · obtain ⟨info₀, hmem₀, hn₀⟩ := h
      rcases mem_addPosition parse roundLog10 m p addr info₀ n hmem₀ hn₀ with h | h
      · exact Or.inl h
      · exact Or.inr ⟨p, List.mem_cons_self p ps, h⟩
    · obtain ⟨pos, hpos, hp⟩ := h
      exact Or.inr ⟨pos, List.mem_cons_of_mem p hpos, hp⟩

/-- C8: every row of the assembled ledger is derived from a log whose
decoded NFT id belongs to the vault's owned-id set, and that id is the
nftId of one of the caller's input positions on that vault — so no row
derived from a log carrying a foreign NFT id ever appears in the
output, even though the monitored vault's stream contains such logs. -/
theorem c8_ledger_only_owned_nft_ids (parse : String → ℚ)
    (roundLog10 : ℚ → ℤ) (positions : List Position)
    (fetch : String → List RawLog) (prices : List (String × ℚ)) (row : Row)
    (hrow : row ∈ fetchForPositions parse roundLog10 positions fetch prices) :
    ∃ addr info, (addr, info) ∈ buildVaultMap parse roundLog10 positions ∧
      ∃ log ∈ fetch addr, ∃ n rows,
        decodeEvent log info prices = some (n, rows) ∧
        n ∈ info.nftIds ∧ row ∈ rows ∧
        ∃ pos ∈ positions, pos.vaultAddress = addr ∧ pos.nftId = n := by
  rw [fetchForPositions, mem_sortDesc, fetchForPositionsUnsorted,
    List.mem_flatMap] at hrow
  obtain ⟨e, he, hrow⟩ := hrow
  obtain ⟨addrE, infoE⟩ := e
  rw [List.mem_flatMap] at hrow
  obtain ⟨log, hlog, hrow⟩ := hrow
  rcases hdec : decodeEvent log infoE prices with _ | nr
  · rw [hdec] at hrow
    simp at hrow
  · rcases nr with ⟨n, rows⟩
    rw [hdec] at hrow
    have hrow2 : row ∈ (if n ∈ infoE.nftIds then rows else []) := hrow
    by_cases hown : n ∈ infoE.nftIds
    · rw [if_pos hown] at hrow2
      have hprov := buildVaultMap_owned parse roundLog10 positions [] addrE infoE n
        he hown
      rcases hprov with ⟨info₀, hmem₀, _⟩ | hprov
      · simp at hmem₀
      · exact ⟨addrE, infoE, he, log, hlog, n, rows, hdec, hown, hrow2, hprov⟩
    · rw [if_neg hown] at hrow2
      simp at hrow2

/-! ## Concrete sample data for witnesses -/

set_option maxRecDepth 100000 in
/-- Witness for C8: the deposit row present in the assembled ledger of
the sample pipeline is traced back to a log whose decoded nftId `1` is
owned by the sample position on that vault. -/
theorem c8_ledger_only_owned_nft_ids_witness :
    ∃ addr info,
      (addr, info) ∈ buildVaultMap parseConst roundLog10Const [samplePosition] ∧
      ∃ log ∈ sampleFetch addr, ∃ n rows,
        decodeEvent log info [] = some (n, rows) ∧
        n ∈ info.nftIds ∧ sampleRow ∈ rows ∧
        ∃ pos ∈ [samplePosition], pos.vaultAddress = addr ∧ pos.nftId = n :=
  c8_ledger_only_owned_nft_ids parseConst roundLog10Const [samplePosition]
    sampleFetch [] sampleRow (by exact List.Mem.head _)

end FluidStatement
